import Mathlib

/-!
Verification development for the LocalBridge repository (a Rust screen-sharing
server).  The Rust sources under `src/` are shallowly embedded below:

* `src/encoder.rs` — the BGRA → planar YUV 4:2:0 pixel-format converter
  `bgra_to_yuv420`, embedded with bytes as `ℕ` and the `f32` arithmetic
  modelled exactly over `ℚ` (the conversion formulas, the clamp to `[0,255]`
  and the truncating `as u8` cast).  Rust's panicking slice indexing is
  modelled by `Option`-valued reads and writes.
* `src/capture.rs` — the `on_frame_arrived` callback and the sample duration
  `Duration::from_secs(1) / TARGET_FPS`, with Rust `Duration` as a pair of
  whole seconds and whole nanoseconds.
* `src/input.rs` — the data-channel message handler: UTF-8 validation,
  JSON decoding of `InputEvent`, and the per-message effect (inject,
  log-and-discard, or silent discard).
* `src/main.rs` — the `/offer` handler: `do_offer`'s sequence of peer
  connection operations, its event trace, and the peer registry.
-/

namespace LocalBridge

/-! ## Pixel format converter (src/encoder.rs) -/

/-- Rust `x.clamp(0.0, 255.0) as u8`: clamp to `[0, 255]`, then the
float-to-integer cast truncates toward zero. -/
def clampU8 (q : ℚ) : ℕ := (⌊max 0 (min q 255)⌋).toNat

/-- Luma formula from `bgra_to_yuv420` (encoder.rs:77), coefficients read as
exact rationals: `y = 16.0 + 0.257*r + 0.504*g + 0.098*b`. -/
def yuvY (r g b : ℚ) : ℚ := 16 + 257/1000 * r + 504/1000 * g + 98/1000 * b

/-- Chroma-U formula (encoder.rs:78): `u = 128.0 - 0.148*r - 0.291*g + 0.439*b`. -/
def yuvU (r g b : ℚ) : ℚ := 128 - 148/1000 * r - 291/1000 * g + 439/1000 * b

/-- Chroma-V formula (encoder.rs:79): `v = 128.0 + 0.439*r - 0.368*g - 0.071*b`. -/
def yuvV (r g b : ℚ) : ℚ := 128 + 439/1000 * r - 368/1000 * g - 71/1000 * b

/-- Rust slice read `l[i]`: `some` value when in bounds, `none` models the
out-of-bounds panic. -/
def readAt (l : List ℕ) (i : ℕ) : Option ℕ := l[i]?

/-- Total read with default 0, used to state what the converter stores. -/
def getAt (l : List ℕ) (i : ℕ) : ℕ := l.getD i 0

/-- Rust slice write `l[i] = x`: succeeds exactly when `i` is in bounds;
`none` models the out-of-bounds panic. -/
def writeAt (l : List ℕ) (i x : ℕ) : Option (List ℕ) :=
  if i < l.length then some (l.set i x) else none

/-- One iteration of the row/col pixel loop of `bgra_to_yuv420`
(encoder.rs:70-89): read the B, G, R bytes of pixel `(row, col)`, store the
clamped luma byte, and on even rows and columns store the clamped U and V
bytes of the 2×2 block at chroma index `(row/2)*(w/2) + col/2`. -/
def convPixel (bgra : List ℕ) (w pixels : ℕ) (data : List ℕ) (row col : ℕ) :
    Option (List ℕ) := do
  let i := (row * w + col) * 4
  let b ← readAt bgra i
  let g ← readAt bgra (i + 1)
  let r ← readAt bgra (i + 2)
  let y := yuvY (r : ℚ) (g : ℚ) (b : ℚ)
  let u := yuvU (r : ℚ) (g : ℚ) (b : ℚ)
  let v := yuvV (r : ℚ) (g : ℚ) (b : ℚ)
  let d1 ← writeAt data (row * w + col) (clampU8 y)
  if row % 2 = 0 ∧ col % 2 = 0 then
    let ci := row / 2 * (w / 2) + col / 2
    let d2 ← writeAt d1 (pixels + ci) (clampU8 u)
    writeAt d2 (pixels + pixels / 4 + ci) (clampU8 v)
  else
    pure d1

/-- `bgra_to_yuv420` (encoder.rs:57-93): allocate `pixels + pixels/2` zero
bytes, then run the nested row-major pixel loop.  The `YUVBuffer` wrapper of
the Rust code carries this byte vector unchanged, so the model returns the
byte vector itself; `none` models a panic of the loop body. -/
def bgra_to_yuv420 (bgra : List ℕ) (w h : ℕ) : Option (List ℕ) :=
  let pixels := w * h
  let data : List ℕ := List.replicate (pixels + pixels / 2) 0
  (List.range h).foldlM (fun d row =>
    (List.range w).foldlM (fun d' col => convPixel bgra w pixels d' row col) d) data

/-- Size of the luma plane, as fixed by the offsets of `bgra_to_yuv420`
(`u_off - y_off = pixels`, encoder.rs:65-66). -/
def lumaPlaneSize (w h : ℕ) : ℕ := w * h

/-- Size of each chroma plane, as fixed by the offsets of `bgra_to_yuv420`
(`v_off - u_off = pixels / 4`, encoder.rs:66-67). -/
def chromaPlaneSize (w h : ℕ) : ℕ := w * h / 4

/-- The row-major sequence of `(row, col)` pairs visited by the nested loop
of `bgra_to_yuv420`. -/
def pixelPairs (w h : ℕ) : List (ℕ × ℕ) :=
  (List.range h).flatMap (fun row => (List.range w).map (fun col => (row, col)))

/-- The set of output indices the loop iteration at `(row, col)` stores to:
its luma byte, and on even rows and columns its U and V bytes. -/
def writesTo (w pixels row col k : ℕ) : Prop :=
  k = row * w + col ∨
    (row % 2 = 0 ∧ col % 2 = 0 ∧
      (k = pixels + (row / 2 * (w / 2) + col / 2) ∨
       k = pixels + pixels / 4 + (row / 2 * (w / 2) + col / 2)))

/-- The byte that `bgra_to_yuv420` stores at output index `k`, as a function
of `k` alone: a luma byte of pixel `k` on the luma plane, and the U (resp. V)
byte of the 2×2 block holding chroma index `k - u_off` (resp. `k - v_off`)
on the chroma planes. -/
def expectedByte (bgra : List ℕ) (w pixels k : ℕ) : ℕ :=
  if k < pixels then
    clampU8 (yuvY (getAt bgra (k * 4 + 2)) (getAt bgra (k * 4 + 1)) (getAt bgra (k * 4)))
  else if k < pixels + pixels / 4 then
    let ci := k - pixels
    let p := (ci / (w / 2) * 2) * w + ci % (w / 2) * 2
    clampU8 (yuvU (getAt bgra (p * 4 + 2)) (getAt bgra (p * 4 + 1)) (getAt bgra (p * 4)))
  else
    let ci := k - (pixels + pixels / 4)
    let p := (ci / (w / 2) * 2) * w + ci % (w / 2) * 2
    clampU8 (yuvV (getAt bgra (p * 4 + 2)) (getAt bgra (p * 4 + 1)) (getAt bgra (p * 4)))

/-! ## Capture bridge (src/capture.rs) -/

deriving instance DecidableEq for Except

/-- `TARGET_FPS` (capture.rs:21). -/
def TARGET_FPS : ℕ := 30

/-- Rust `std::time::Duration`: whole seconds plus whole nanoseconds
(`nanos < 10^9`). -/
structure Duration where
  secs : ℕ
  nanos : ℕ
deriving DecidableEq

/-- `Duration::from_secs`. -/
def Duration.fromSecs (s : ℕ) : Duration := ⟨s, 0⟩

/-- `Duration / u32` (used at capture.rs:74).  The standard library divides
the second and nanosecond components and carries the remainder of the seconds
into the nanosecond division, truncating to whole nanoseconds. -/
def Duration.divNat (d : Duration) (rhs : ℕ) : Duration :=
  let secs := d.secs / rhs
  let extraSecs := d.secs % rhs
  let nanos := d.nanos / rhs
  let extraNanos := d.nanos % rhs
  ⟨secs, nanos + (extraSecs * 1000000000 + extraNanos) / rhs⟩

/-- Total nanoseconds represented by a `Duration`. -/
def Duration.totalNanos (d : Duration) : ℕ := d.secs * 1000000000 + d.nanos

/-- The presentation duration assigned to every submitted sample:
`let dur = Duration::from_secs(1) / TARGET_FPS` (capture.rs:74). -/
def frameDuration : Duration := (Duration.fromSecs 1).divNat TARGET_FPS

/-- A media sample handed to `TrackLocalStaticSample::write_sample`
(capture.rs:76-80): the encoded bytes plus the presentation duration. -/
structure Sample where
  data : List ℕ
  duration : Duration
deriving DecidableEq

/-- `on_frame_arrived` (capture.rs:55-85).  Buffer acquisition and
`encode_bgra` are fallible steps whose combined outcome is the input
`encodeResult` (their errors propagate through `?`).  On success: if the
encoder produced no bytes, the callback returns `Ok(())` without touching
the track (`none`); otherwise it hands exactly one sample — the NAL bytes
with the `1/TARGET_FPS` presentation duration — to the track-writing task
(`some`). -/
def on_frame_arrived (encodeResult : Except String (List ℕ)) :
    Except String (Option Sample) :=
  match encodeResult with
  | .error e => .error e
  | .ok nal =>
    if nal = [] then .ok none
    else .ok (some ⟨nal, frameDuration⟩)

/-! ## Input channel (src/input.rs)

The data-channel handler first runs `std::str::from_utf8` on the raw
message bytes, then `serde_json::from_str::<InputEvent>` on the resulting
text.  Both collaborators are modelled at their documented boundary:
`utf8Decode` is RFC 3629 UTF-8 decoding (rejecting surrogates, overlongs and
values above U+10FFFF, as Rust does), and the JSON parser below follows the
JSON grammar serde_json accepts, with strings as code-point lists and
numbers as exact rationals. -/

/-- Rust `std::str::from_utf8`, returning the decoded code points. -/
def utf8Decode : List ℕ → Option (List ℕ)
  | [] => some []
  | b1 :: t1 =>
    if b1 < 128 then
      (utf8Decode t1).map (fun t => b1 :: t)
    else if 194 ≤ b1 ∧ b1 ≤ 223 then
      match t1 with
      | b2 :: t2 =>
        if 128 ≤ b2 ∧ b2 ≤ 191 then
          (utf8Decode t2).map (fun t => ((b1 - 194 + 2) * 64 + (b2 - 128)) :: t)
        else none
      | _ => none
    else if 224 ≤ b1 ∧ b1 ≤ 239 then
      match t1 with
      | b2 :: b3 :: t3 =>
        if (if b1 = 224 then 160 ≤ b2 ∧ b2 ≤ 191
            else if b1 = 237 then 128 ≤ b2 ∧ b2 ≤ 159
            else 128 ≤ b2 ∧ b2 ≤ 191) ∧ 128 ≤ b3 ∧ b3 ≤ 191 then
          (utf8Decode t3).map (fun t =>
            ((b1 - 224) * 4096 + (b2 - 128) * 64 + (b3 - 128)) :: t)
        else none
      | _ => none
    else if 240 ≤ b1 ∧ b1 ≤ 244 then
      match t1 with
      | b2 :: b3 :: b4 :: t4 =>
        if (if b1 = 240 then 144 ≤ b2 ∧ b2 ≤ 191
            else if b1 = 244 then 128 ≤ b2 ∧ b2 ≤ 143
            else 128 ≤ b2 ∧ b2 ≤ 191) ∧
           (128 ≤ b3 ∧ b3 ≤ 191) ∧ 128 ≤ b4 ∧ b4 ≤ 191 then
          (utf8Decode t4).map (fun t =>
            ((b1 - 240) * 262144 + (b2 - 128) * 4096 + (b3 - 128) * 64 +
              (b4 - 128)) :: t)
        else none
      | _ => none
    else none

/-- Code points of an ASCII Lean string, used to write concrete payloads. -/
def asciiCodes (s : String) : List ℕ := s.data.map (fun c => c.toNat)

/-- JSON values as serde_json reads them; strings are code-point lists,
numbers exact rationals. -/
inductive Json where
  | null : Json
  | bool (b : Bool) : Json
  | num (q : ℚ) : Json
  | str (s : List ℕ) : Json
  | arr (xs : List Json) : Json
  | obj (fields : List (List ℕ × Json)) : Json

/-- Skip JSON whitespace (space, tab, line feed, carriage return). -/
def skipWs : List ℕ → List ℕ
  | c :: t => if c = 32 ∨ c = 9 ∨ c = 10 ∨ c = 13 then skipWs t else c :: t
  | [] => []

/-- One hexadecimal digit. -/
def hexDigit (c : ℕ) : Option ℕ :=
  if 48 ≤ c ∧ c ≤ 57 then some (c - 48)
  else if 97 ≤ c ∧ c ≤ 102 then some (c - 97 + 10)
  else if 65 ≤ c ∧ c ≤ 70 then some (c - 65 + 10)
  else none

/-- JSON string body after the opening quote: content plus remaining input. -/
def parseStringBody : List ℕ → Option (List ℕ × List ℕ)
  | [] => none
  | 34 :: r => some ([], r)
  | 92 :: e :: r =>
    if e = 34 then (parseStringBody r).map (fun p => (34 :: p.1, p.2))
    else if e = 92 then (parseStringBody r).map (fun p => (92 :: p.1, p.2))
    else if e = 47 then (parseStringBody r).map (fun p => (47 :: p.1, p.2))
    else if e = 98 then (parseStringBody r).map (fun p => (8 :: p.1, p.2))
    else if e = 102 then (parseStringBody r).map (fun p => (12 :: p.1, p.2))
    else if e = 110 then (parseStringBody r).map (fun p => (10 :: p.1, p.2))
    else if e = 114 then (parseStringBody r).map (fun p => (13 :: p.1, p.2))
    else if e = 116 then (parseStringBody r).map (fun p => (9 :: p.1, p.2))
    else if e = 117 then
      match r with
      | h1 :: h2 :: h3 :: h4 :: r2 =>
        match hexDigit h1, hexDigit h2, hexDigit h3, hexDigit h4 with
        | some d1, some d2, some d3, some d4 =>
          (parseStringBody r2).map (fun p =>
            ((d1 * 4096 + d2 * 256 + d3 * 16 + d4) :: p.1, p.2))
        | _, _, _, _ => none
      | _ => none
    else none
  | c :: r =>
    if c < 32 then none
    else (parseStringBody r).map (fun p => (c :: p.1, p.2))

/-- Split off a maximal run of leading decimal digits. -/
def parseDigits : List ℕ → List ℕ × List ℕ
  | c :: t =>
    if 48 ≤ c ∧ c ≤ 57 then
      let p := parseDigits t
      (c :: p.1, p.2)
    else ([], c :: t)
  | [] => ([], [])

/-- Numeric value of a digit run. -/
def digitsVal (ds : List ℕ) : ℕ := ds.foldl (fun acc d => acc * 10 + (d - 48)) 0

/-- JSON number: optional sign, integer part without leading zeros, optional
fraction and exponent, valued exactly in `ℚ`. -/
def parseNumber (s : List ℕ) : Option (ℚ × List ℕ) :=
  let signed : Bool × List ℕ := match s with
    | 45 :: t => (true, t)
    | _ => (false, s)
  match signed.2 with
  | [] => none
  | c :: _ =>
    if 48 ≤ c ∧ c ≤ 57 then
      let ip := parseDigits signed.2
      if 2 ≤ ip.1.length ∧ ip.1.headD 0 = 48 then none
      else
        let base : ℚ := (digitsVal ip.1 : ℚ)
        let withFrac : Option (ℚ × List ℕ) :=
          match ip.2 with
          | 46 :: t2 =>
            let fp := parseDigits t2
            if fp.1 = [] then none
            else some (base + (digitsVal fp.1 : ℚ) / ((10 : ℚ) ^ fp.1.length), fp.2)
          | _ => some (base, ip.2)
        match withFrac with
        | none => none
        | some (mant, r2) =>
          let withExp : Option (ℚ × List ℕ) :=
            match r2 with
            | e :: t3 =>
              if e = 101 ∨ e = 69 then
                let es : Bool × List ℕ := match t3 with
                  | 43 :: u => (false, u)
                  | 45 :: u => (true, u)
                  | _ => (false, t3)
                let ep := parseDigits es.2
                if ep.1 = [] then none
                else if es.1 then some (mant / ((10 : ℚ) ^ digitsVal ep.1), ep.2)
                else some (mant * ((10 : ℚ) ^ digitsVal ep.1), ep.2)
              else some (mant, r2)
            | [] => some (mant, r2)
          match withExp with
          | none => none
          | some (v, r3) => some (if signed.1 then -v else v, r3)
    else none

mutual

/-- One JSON value (fuelled recursion; the fuel bounds nesting depth). -/
def parseValue : ℕ → List ℕ → Option (Json × List ℕ)
  | 0, _ => none
  | fuel + 1, s =>
    match skipWs s with
    | [] => none
    | c :: t =>
      if c = 110 then
        match t with
        | 117 :: 108 :: 108 :: r => some (.null, r)
        | _ => none
      else if c = 116 then
        match t with
        | 114 :: 117 :: 101 :: r => some (.bool true, r)
        | _ => none
      else if c = 102 then
        match t with
        | 97 :: 108 :: 115 :: 101 :: r => some (.bool false, r)
        | _ => none
      else if c = 34 then
        (parseStringBody t).map (fun p => (.str p.1, p.2))
      else if c = 91 then
        match skipWs t with
        | 93 :: r => some (.arr [], r)
        | t2 => (parseItems fuel t2).map (fun p => (.arr p.1, p.2))
      else if c = 123 then
        match skipWs t with
        | 125 :: r => some (.obj [], r)
        | t2 => (parseFields fuel t2).map (fun p => (.obj p.1, p.2))
      else
        (parseNumber (c :: t)).map (fun p => (.num p.1, p.2))

/-- Comma-separated array items up to the closing bracket. -/
def parseItems : ℕ → List ℕ → Option (List Json × List ℕ)
  | 0, _ => none
  | fuel + 1, s =>
    match parseValue fuel s with
    | none => none
    | some (v, r) =>
      match skipWs r with
      | 44 :: r2 => (parseItems fuel r2).map (fun p => (v :: p.1, p.2))
      | 93 :: r2 => some ([v], r2)
      | _ => none

/-- Comma-separated object fields up to the closing brace. -/
def parseFields : ℕ → List ℕ → Option (List (List ℕ × Json) × List ℕ)
  | 0, _ => none
  | fuel + 1, s =>
    match skipWs s with
    | 34 :: t =>
      match parseStringBody t with
      | none => none
      | some (key, r) =>
        match skipWs r with
        | 58 :: r2 =>
          match parseValue fuel r2 with
          | none => none
          | some (v, r3) =>
            match skipWs r3 with
            | 44 :: r4 => (parseFields fuel r4).map (fun p => ((key, v) :: p.1, p.2))
            | 125 :: r4 => some ([(key, v)], r4)
            | _ => none
        | _ => none
    | _ => none

end

/-- `serde_json::from_str` entry point: one value, then only trailing
whitespace. -/
def parseJson (s : List ℕ) : Option Json :=
  match parseValue (s.length + 1) s with
  | some (v, r) => if skipWs r = [] then some v else none
  | none => none

/-- `InputEvent` (input.rs:11-18): the tagged variants of remote input. -/
inductive InputEvent where
  | mouseMove (x y : ℚ) : InputEvent
  | mouseDown (x y : ℚ) (button : ℕ) : InputEvent
  | mouseUp (x y : ℚ) (button : ℕ) : InputEvent
  | mouseScroll (dx dy : ℚ) : InputEvent
  | keyDown (code : List ℕ) : InputEvent
  | keyUp (code : List ℕ) : InputEvent
deriving DecidableEq

/-- First binding of a field name in a JSON object. -/
def lookupField : List (List ℕ × Json) → List ℕ → Option Json
  | [], _ => none
  | (k, v) :: t, key => if k = key then some v else lookupField t key

/-- Whether a JSON value is an object carrying the given field. -/
def Json.hasField (j : Json) (key : List ℕ) : Bool :=
  match j with
  | .obj fs => (lookupField fs key).isSome
  | _ => false

/-- An `f64` field of an object (serde accepts any JSON number). -/
def numField (fs : List (List ℕ × Json)) (key : String) : Option ℚ :=
  match lookupField fs (asciiCodes key) with
  | some (Json.num q) => some q
  | _ => none

/-- A `u8` field of an object: an integral JSON number in `[0, 255]`. -/
def byteField (fs : List (List ℕ × Json)) (key : String) : Option ℕ :=
  match lookupField fs (asciiCodes key) with
  | some (Json.num q) =>
    if q.den = 1 ∧ 0 ≤ q.num ∧ q.num ≤ 255 then some q.num.toNat else none
  | _ => none

/-- A string field of an object. -/
def strField (fs : List (List ℕ × Json)) (key : String) : Option (List ℕ) :=
  match lookupField fs (asciiCodes key) with
  | some (Json.str s) => some s
  | _ => none

/-- `serde_json::from_str::<InputEvent>` for the internally tagged enum
(`#[serde(tag = "type", rename_all = "snake_case")]`, input.rs:9-18): the
payload must be a JSON object whose "type" field selects the variant, whose
remaining fields fill the variant's data; unknown extra fields are ignored. -/
def parseInputEvent (text : List ℕ) : Option InputEvent :=
  match parseJson text with
  | some (Json.obj fields) =>
    match lookupField fields (asciiCodes "type") with
    | some (Json.str tag) =>
      if tag = asciiCodes "mouse_move" then
        match numField fields "x", numField fields "y" with
        | some x, some y => some (.mouseMove x y)
        | _, _ => none
      else if tag = asciiCodes "mouse_down" then
        match numField fields "x", numField fields "y", byteField fields "button" with
        | some x, some y, some b => some (.mouseDown x y b)
        | _, _, _ => none
      else if tag = asciiCodes "mouse_up" then
        match numField fields "x", numField fields "y", byteField fields "button" with
        | some x, some y, some b => some (.mouseUp x y b)
        | _, _, _ => none
      else if tag = asciiCodes "mouse_scroll" then
        match numField fields "dx", numField fields "dy" with
        | some dx, some dy => some (.mouseScroll dx dy)
        | _, _ => none
      else if tag = asciiCodes "key_down" then
        match strField fields "code" with
        | some code => some (.keyDown code)
        | _ => none
      else if tag = asciiCodes "key_up" then
        match strField fields "code" with
        | some code => some (.keyUp code)
        | _ => none
      else none
    | _ => none
  | _ => none

/-- The observable effect of the `on_message` callback for one message. -/
inductive MsgEffect where
  | injected (ev : InputEvent) : MsgEffect
  | loggedBadInput : MsgEffect
  | discarded : MsgEffect
deriving DecidableEq

/-- The `on_message` callback body (input.rs:23-33): decode the bytes as
UTF-8 — on failure the message is dropped with no log (the `if let Ok`
silently ignores the error) — then parse the text as an `InputEvent`: on
success the event is injected (input.rs:29), on failure a warning is logged
and the message discarded (input.rs:30).  No outcome closes the channel. -/
def on_message (data : List ℕ) : MsgEffect :=
  match utf8Decode data with
  | some text =>
    match parseInputEvent text with
    | some ev => .injected ev
    | none => .loggedBadInput
  | none => .discarded

/-- The channel handler processes each incoming message independently with
`on_message`; nothing terminates the stream. -/
def processMessages (msgs : List (List ℕ)) : List MsgEffect :=
  msgs.map on_message

/-- The spec's example of a malformed (but UTF-8) payload. -/
def notJsonBytes : List ℕ := asciiCodes "not json"

/-- The spec's example of a valid payload (braces written as escapes). -/
def mouseMoveBytes : List ℕ :=
  asciiCodes "\x7b\"type\":\"mouse_move\",\"x\":1,\"y\":2\x7d"

/-! ## Offer handling and the peer registry (src/main.rs)

`do_offer` drives the webrtc crate, which the spec treats as an external
collaborator; its calls are modelled at their boundary.  `OfferEnv` carries
the outcome of each external step: which operations succeed, how
`RTCSessionDescription::offer` parses the submitted sdp, the answer produced
by `create_answer`, the candidate set ICE gathering eventually discovers,
and the freshly minted uuid.  `set_local_description` stores the pending
description and starts gathering; `gathering_complete_promise`'s receiver
resolves once all candidates are gathered; `local_description()` then
returns the stored description together with the candidates gathered so
far. -/

/-- State of one modelled `RTCPeerConnection`. -/
structure RTCPeerConnection where
  trackAttached : Bool
  onDataChannelSet : Bool
  remoteDescription : Option String
  pendingLocal : Option String
  gathered : List String
  gatheringComplete : Bool
deriving DecidableEq

/-- A session description as returned to the caller: the answer sdp plus the
ICE candidates it carries. -/
structure SessionDescription where
  sdp : String
  candidates : List String
deriving DecidableEq

/-- The externally observable steps of `do_offer`, in program order. -/
inductive OfferEvent where
  | newPeerConnection : OfferEvent
  | addTrack : OfferEvent
  | onDataChannel : OfferEvent
  | insertPeer : OfferEvent
  | setRemoteDescription : OfferEvent
  | createAnswer : OfferEvent
  | gatherPromise : OfferEvent
  | setLocalDescription : OfferEvent
  | gatherRecv : OfferEvent
  | readLocalDescription : OfferEvent
deriving DecidableEq

/-- Outcomes of the external webrtc/uuid collaborators for one `/offer`
request. -/
structure OfferEnv where
  mediaEngineOk : Bool
  newPeerConnectionOk : Bool
  addTrackOk : Bool
  parseOffer : String → Except String String
  setRemoteOk : Bool
  createAnswerResult : Except String String
  setLocalOk : Bool
  candidates : List String
  freshId : String

/-- Key set of `HashMap::insert` (main.rs:183).  The registry maps session
ids to `Arc<RTCPeerConnection>` values that no code path ever reads back, so
the model tracks the key set. -/
def insertPeerId (peers : List String) (id : String) : List String :=
  if id ∈ peers then peers else id :: peers

/-- The full event trace of a negotiation that reaches the final
`local_description()` read (main.rs:171-201). -/
def offerTrace : List OfferEvent :=
  [.newPeerConnection, .addTrack, .onDataChannel, .insertPeer,
   .setRemoteDescription, .createAnswer, .gatherPromise,
   .setLocalDescription, .gatherRecv, .readLocalDescription]

/-- The peer-connection state after `set_remote_description`,
`create_answer`, `set_local_description` (which stores the pending local
description and starts ICE gathering) and `gather.recv()` (gathering
complete: all candidates of the environment are gathered). -/
def pcAfterNegotiation (offerSdp answerSdp : String) (cands : List String) :
    RTCPeerConnection :=
  ⟨true, true, some offerSdp, some answerSdp, cands, true⟩

/-- `local_description()`: the stored pending description together with the
candidates gathered so far, or `None` if no description was stored. -/
def localDescription (pc : RTCPeerConnection) : Option SessionDescription :=
  pc.pendingLocal.map (fun sdp => ⟨sdp, pc.gathered⟩)

/-- `do_offer` (main.rs:150-202): build the API, create the peer connection,
attach the shared video track, register the data-channel callback, insert
the session into the registry (main.rs:183), parse the remote offer
(main.rs:186), apply it, create an answer, create the gathering promise,
set the local description (which starts ICE gathering), await gathering
completion, and finally read back the local description — now carrying the
complete candidate set — as the returned answer.  Returns the result, the
registry key set after the call, and the trace of completed steps. -/
def do_offer (env : OfferEnv) (peers : List String) (bodySdp : String) :
    Except String SessionDescription × List String × List OfferEvent :=
  if env.mediaEngineOk = false then
    (.error "media engine error", peers, [])
  else if env.newPeerConnectionOk = false then
    (.error "new_peer_connection error", peers, [])
  else if env.addTrackOk = false then
    (.error "add_track error", peers, [.newPeerConnection])
  else
    match env.parseOffer bodySdp with
    | .error e =>
      (.error e, insertPeerId peers env.freshId,
        [.newPeerConnection, .addTrack, .onDataChannel, .insertPeer])
    | .ok offerSdp =>
      if env.setRemoteOk = false then
        (.error "set_remote_description error", insertPeerId peers env.freshId,
          [.newPeerConnection, .addTrack, .onDataChannel, .insertPeer])
      else
        match env.createAnswerResult with
        | .error e =>
          (.error e, insertPeerId peers env.freshId,
            [.newPeerConnection, .addTrack, .onDataChannel, .insertPeer,
             .setRemoteDescription])
        | .ok answerSdp =>
          if env.setLocalOk = false then
            (.error "set_local_description error", insertPeerId peers env.freshId,
              [.newPeerConnection, .addTrack, .onDataChannel, .insertPeer,
               .setRemoteDescription, .createAnswer, .gatherPromise])
          else
            match localDescription
                (pcAfterNegotiation offerSdp answerSdp env.candidates) with
            | none =>
              (.error "No local description", insertPeerId peers env.freshId,
                offerTrace)
            | some ld =>
              (.ok ld, insertPeerId peers env.freshId, offerTrace)

/-- The sdp text of a description including its candidate lines. -/
def renderDescription (d : SessionDescription) : List ℕ :=
  asciiCodes d.sdp ++
    d.candidates.flatMap (fun c => asciiCodes "a=candidate:" ++ asciiCodes c ++ [10])

/-- `handle_offer` (main.rs:135-147): on success a JSON object with "sdp"
and "type" fields, on failure a JSON object with an "error" field; either
way the registry is whatever `do_offer` left behind. -/
def handle_offer (env : OfferEnv) (peers : List String) (bodySdp : String) :
    Json × List String :=
  match do_offer env peers bodySdp with
  | (.ok ans, peers2, _) =>
    (.obj [(asciiCodes "sdp", .str (renderDescription ans)),
           (asciiCodes "type", .str (asciiCodes "answer"))], peers2)
  | (.error e, peers2, _) =>
    (.obj [(asciiCodes "error", .str (asciiCodes e))], peers2)

/-- A concrete environment: every external operation succeeds, and offer
parsing (like `RTCSessionDescription::offer`) rejects an empty sdp. -/
def sampleEnv : OfferEnv :=
  { mediaEngineOk := true
    newPeerConnectionOk := true
    addTrackOk := true
    parseOffer := fun s => if s = "" then .error "SdpParseError" else .ok s
    setRemoteOk := true
    createAnswerResult := .ok "answer-sdp"
    setLocalOk := true
    candidates := ["candidate:host-1"]
    freshId := "peer-1" }

/-- Kinds of callback a peer connection can carry. -/
inductive PeerCallbackKind where
  | onDataChannel : PeerCallbackKind
  | onPeerConnectionStateChange : PeerCallbackKind
  | onIceConnectionStateChange : PeerCallbackKind
deriving DecidableEq, BEq

/-- A callback installed on a peer connection, with its effect on the peer
registry. -/
structure InstalledCallback where
  kind : PeerCallbackKind
  registryEffect : List String → List String

/-- The callbacks the program installs on each new peer connection: only
`on_data_channel` (main.rs:177-179), whose handler
(`input::handle_data_channel`) has no access to `state.peers` and leaves the
registry untouched.  No connection-state or disconnect callback is
registered anywhere in the program. -/
def installedCallbacks : List InstalledCallback :=
  [⟨.onDataChannel, fun peers => peers⟩]

/-- Deliver a peer event: run the registry effect of every installed
callback of that kind. -/
def dispatchPeerEvent (k : PeerCallbackKind) (peers : List String) : List String :=
  (installedCallbacks.filter (fun c => c.kind == k)).foldl
    (fun acc c => c.registryEffect acc) peers

/-! ### Elementary lemmas about the list primitives -/

theorem readAt_eq_some {l : List ℕ} {i : ℕ} (h : i < l.length) :
    readAt l i = some (getAt l i) := by
  unfold readAt getAt
  rw [List.getElem?_eq_getElem h, List.getD_eq_getElem?_getD, List.getElem?_eq_getElem h]
  rfl

theorem writeAt_eq_some {l : List ℕ} {i : ℕ} (x : ℕ) (h : i < l.length) :
    writeAt l i x = some (l.set i x) := by
  unfold writeAt
  rw [if_pos h]

theorem getAt_set_self : ∀ (l : List ℕ) (i x : ℕ), i < l.length →
    getAt (l.set i x) i = x
  | [], i, x, h => by simp at h
  | a :: t, 0, x, _ => by simp [getAt]
  | a :: t, i + 1, x, h => by
    have := getAt_set_self t i x (by simpa using h)
    simpa [getAt] using this

theorem getAt_set_ne : ∀ (l : List ℕ) (i k x : ℕ), i ≠ k →
    getAt (l.set i x) k = getAt l k
  | [], _, _, _, _ => by simp [getAt]
  | a :: t, 0, 0, x, h => by simp at h
  | a :: t, 0, k + 1, x, _ => by simp [getAt]
  | a :: t, i + 1, 0, x, _ => by simp [getAt]
  | a :: t, i + 1, k + 1, x, h => by
    have := getAt_set_ne t i k x (by omega)
    simpa [getAt] using this

theorem getAt_replicate (n k : ℕ) : getAt (List.replicate n 0) k = 0 := by
  induction n generalizing k with
  | zero => simp [getAt]
  | succ m ih =>
    cases k with
    | zero => simp [getAt, List.replicate]
    | succ j => simp only [List.replicate, getAt, List.getD_cons_succ]; exact ih j

theorem clampU8_le (q : ℚ) : clampU8 q ≤ 255 := by
  unfold clampU8
  have h1 : max 0 (min q 255) ≤ (255 : ℚ) :=
    max_le (by norm_num) (min_le_right _ _)
  have h2 : ⌊max 0 (min q 255)⌋ ≤ (255 : ℤ) := by
    have := Int.floor_le_floor h1
    simpa using this
  omega

theorem clampU8_eval (n : ℕ) (h : n ≤ 255) : clampU8 ((n : ℚ)) = n := by
  unfold clampU8
  rw [min_eq_left (by exact_mod_cast h), max_eq_right (by positivity)]
  rw [Int.floor_natCast]
  omega

theorem expectedByte_le (bgra : List ℕ) (w pixels k : ℕ) :
    expectedByte bgra w pixels k ≤ 255 := by
  unfold expectedByte
  split
  · exact clampU8_le _
  · split
    · exact clampU8_le _
    · exact clampU8_le _

/-! ### The nested loop as a single fold over row-major pixel pairs -/

theorem foldlM_opt_flatMap {α β γ : Type} (g : γ → List α) (f : β → α → Option β) :
    ∀ (l : List γ) (b : β),
      (l.flatMap g).foldlM f b = l.foldlM (fun b' c => (g c).foldlM f b') b := by
  intro l
  induction l with
  | nil => intro b; rfl
  | cons c t ih =>
    intro b
    rw [List.flatMap_cons, List.foldlM_append, List.foldlM_cons]
    cases hgc : (g c).foldlM f b with
    | none => rfl
    | some b' => exact ih b'

theorem bgra_to_yuv420_eq_pairs (bgra : List ℕ) (w h : ℕ) :
    bgra_to_yuv420 bgra w h =
      (pixelPairs w h).foldlM
        (fun d p => convPixel bgra w (w * h) d p.1 p.2)
        (List.replicate (w * h + w * h / 2) 0) := by
  unfold bgra_to_yuv420 pixelPairs
  rw [foldlM_opt_flatMap]
  simp only [List.foldlM_map]

theorem mem_pixelPairs {w h : ℕ} {p : ℕ × ℕ} :
    p ∈ pixelPairs w h ↔ p.1 < h ∧ p.2 < w := by
  obtain ⟨row, col⟩ := p
  constructor
  · intro hmem
    rcases List.mem_flatMap.mp hmem with ⟨row', hrow', hmem2⟩
    rcases List.mem_map.mp hmem2 with ⟨col', hcol', heq⟩
    obtain ⟨rfl, rfl⟩ := Prod.mk.injEq .. ▸ heq
    exact ⟨List.mem_range.mp hrow', List.mem_range.mp hcol'⟩
  · intro ⟨h1, h2⟩
    exact List.mem_flatMap.mpr ⟨row, List.mem_range.mpr h1,
      List.mem_map.mpr ⟨col, List.mem_range.mpr h2, rfl⟩⟩

/-! ### Index arithmetic under the even-dimension precondition -/

theorem blockIdx_lt (w' h' i j : ℕ) (hi : i < h') (hj : j < w') :
    i * w' + j < w' * h' := by
  obtain ⟨a, rfl⟩ : ∃ a, w' = a + 1 := ⟨w' - 1, by omega⟩
  obtain ⟨b, rfl⟩ : ∃ b, h' = b + 1 := ⟨h' - 1, by omega⟩
  have h3 : i * (a + 1) ≤ b * (a + 1) := Nat.mul_le_mul_right _ (by omega)
  have h4 : b * (a + 1) + (a + 1) = (a + 1) * (b + 1) := by ring
  omega

theorem lumaIdx_lt (w' h' row col : ℕ) (hrow : row < 2 * h') (hcol : col < 2 * w') :
    row * (2 * w') + col < 2 * w' * (2 * h') := by
  have h1 := blockIdx_lt (2 * w') (2 * h') row col hrow hcol
  have h2 : 2 * w' * (2 * h') = 2 * h' * (2 * w') := by ring
  omega

theorem chromaIdx_lt (w' h' row col : ℕ) (hrow : row < 2 * h') (hcol : col < 2 * w') :
    row / 2 * ((2 * w') / 2) + col / 2 < 2 * w' * (2 * h') / 4 := by
  have hw2 : (2 * w') / 2 = w' := by omega
  have hPP : 2 * w' * (2 * h') = 4 * (w' * h') := by ring
  have hP4 : 2 * w' * (2 * h') / 4 = w' * h' := by omega
  rw [hw2, hP4]
  have h1 : w' * h' = w' * h' := rfl
  exact blockIdx_lt w' h' (row / 2) (col / 2) (by omega) (by omega)

/-! ### What one loop iteration does to the output buffer -/

theorem expectedByte_u_block (w' h' : ℕ) (bgra : List ℕ) (i j : ℕ)
    (hi : i < h') (hj : j < w') :
    expectedByte bgra (2 * w') (2 * w' * (2 * h')) (2 * w' * (2 * h') + (i * w' + j)) =
      clampU8 (yuvU (getAt bgra ((2 * i * (2 * w') + 2 * j) * 4 + 2))
                    (getAt bgra ((2 * i * (2 * w') + 2 * j) * 4 + 1))
                    (getAt bgra ((2 * i * (2 * w') + 2 * j) * 4))) := by
  unfold expectedByte
  have hw2 : (2 * w') / 2 = w' := by omega
  have hPP : 2 * w' * (2 * h') = 4 * (w' * h') := by ring
  have hP4 : 2 * w' * (2 * h') / 4 = w' * h' := by omega
  have hij : i * w' + j < w' * h' := blockIdx_lt w' h' i j hi hj
  rw [if_neg (by omega), if_pos (by omega)]
  have hsub : 2 * w' * (2 * h') + (i * w' + j) - 2 * w' * (2 * h') = i * w' + j := by omega
  have hiw : i * w' + j = w' * i + j := by ring
  have hdiv : (i * w' + j) / w' = i := by
    rw [hiw, Nat.mul_add_div (by omega), Nat.div_eq_of_lt hj]
    omega
  have hmod : (i * w' + j) % w' = j := by
    rw [hiw, Nat.mul_add_mod, Nat.mod_eq_of_lt hj]
  simp only [hsub, hw2, hdiv, hmod]
  have hp : i * 2 * (2 * w') + j * 2 = 2 * i * (2 * w') + 2 * j := by ring
  rw [hp]

theorem expectedByte_v_block (w' h' : ℕ) (bgra : List ℕ) (i j : ℕ)
    (hi : i < h') (hj : j < w') :
    expectedByte bgra (2 * w') (2 * w' * (2 * h'))
        (2 * w' * (2 * h') + 2 * w' * (2 * h') / 4 + (i * w' + j)) =
      clampU8 (yuvV (getAt bgra ((2 * i * (2 * w') + 2 * j) * 4 + 2))
                    (getAt bgra ((2 * i * (2 * w') + 2 * j) * 4 + 1))
                    (getAt bgra ((2 * i * (2 * w') + 2 * j) * 4))) := by
  unfold expectedByte
  have hw2 : (2 * w') / 2 = w' := by omega
  have hPP : 2 * w' * (2 * h') = 4 * (w' * h') := by ring
  have hP4 : 2 * w' * (2 * h') / 4 = w' * h' := by omega
  have hij : i * w' + j < w' * h' := blockIdx_lt w' h' i j hi hj
  rw [if_neg (by omega), if_neg (by omega)]
  have hsub : 2 * w' * (2 * h') + 2 * w' * (2 * h') / 4 + (i * w' + j) -
      (2 * w' * (2 * h') + 2 * w' * (2 * h') / 4) = i * w' + j := by omega
  have hiw : i * w' + j = w' * i + j := by ring
  have hdiv : (i * w' + j) / w' = i := by
    rw [hiw, Nat.mul_add_div (by omega), Nat.div_eq_of_lt hj]
    omega
  have hmod : (i * w' + j) % w' = j := by
    rw [hiw, Nat.mul_add_mod, Nat.mod_eq_of_lt hj]
  simp only [hsub, hw2, hdiv, hmod]
  have hp : i * 2 * (2 * w') + j * 2 = 2 * i * (2 * w') + 2 * j := by ring
  rw [hp]

theorem getAt_set1 (d : List ℕ) (i1 x1 k : ℕ) (h1 : i1 < d.length) :
    getAt (d.set i1 x1) k = if k = i1 then x1 else getAt d k := by
  by_cases e1 : k = i1
  · subst e1; rw [if_pos rfl]; exact getAt_set_self _ _ _ h1
  · rw [if_neg e1, getAt_set_ne _ _ _ _ (fun h => e1 h.symm)]

theorem getAt_set3 (d : List ℕ) (i1 i2 i3 x1 x2 x3 k : ℕ)
    (h1 : i1 < d.length) (h2 : i2 < d.length) (h3 : i3 < d.length) :
    getAt (((d.set i1 x1).set i2 x2).set i3 x3) k =
      if k = i3 then x3 else if k = i2 then x2 else if k = i1 then x1 else getAt d k := by
  by_cases e3 : k = i3
  · subst e3; rw [if_pos rfl]; exact getAt_set_self _ _ _ (by simpa using h3)
  · rw [if_neg e3, getAt_set_ne _ _ _ _ (fun h => e3 h.symm)]
    by_cases e2 : k = i2
    · subst e2; rw [if_pos rfl]; exact getAt_set_self _ _ _ (by simpa using h2)
    · rw [if_neg e2, getAt_set_ne _ _ _ _ (fun h => e2 h.symm)]
      by_cases e1 : k = i1
      · subst e1; rw [if_pos rfl]; exact getAt_set_self _ _ _ h1
      · rw [if_neg e1, getAt_set_ne _ _ _ _ (fun h => e1 h.symm)]

theorem convPixel_spec (w' h' : ℕ) (bgra d : List ℕ) (row col : ℕ)
    (hb : bgra.length = 2 * w' * (2 * h') * 4)
    (hd : d.length = 2 * w' * (2 * h') + 2 * w' * (2 * h') / 2)
    (hrow : row < 2 * h') (hcol : col < 2 * w') :
    ∃ d2, convPixel bgra (2 * w') (2 * w' * (2 * h')) d row col = some d2 ∧
      d2.length = d.length ∧
      (∀ k, writesTo (2 * w') (2 * w' * (2 * h')) row col k →
        getAt d2 k = expectedByte bgra (2 * w') (2 * w' * (2 * h')) k) ∧
      (∀ k, ¬ writesTo (2 * w') (2 * w' * (2 * h')) row col k →
        getAt d2 k = getAt d k) := by
  have hPP : 2 * w' * (2 * h') = 4 * (w' * h') := by ring
  have hwpos : 0 < w' := by omega
  have hhpos : 0 < h' := by omega
  have hwh : 0 < w' * h' := Nat.mul_pos hwpos hhpos
  have hluma : row * (2 * w') + col < 2 * w' * (2 * h') :=
    lumaIdx_lt w' h' row col hrow hcol
  have hchroma : row / 2 * ((2 * w') / 2) + col / 2 < 2 * w' * (2 * h') / 4 :=
    chromaIdx_lt w' h' row col hrow hcol
  have h0 : (row * (2 * w') + col) * 4 < bgra.length := by rw [hb]; omega
  have h1 : (row * (2 * w') + col) * 4 + 1 < bgra.length := by rw [hb]; omega
  have h2 : (row * (2 * w') + col) * 4 + 2 < bgra.length := by rw [hb]; omega
  have hld : row * (2 * w') + col < d.length := by rw [hd]; omega
  have hk1d : 2 * w' * (2 * h') + (row / 2 * ((2 * w') / 2) + col / 2) < d.length := by
    rw [hd]; omega
  have hk2d : 2 * w' * (2 * h') + 2 * w' * (2 * h') / 4 +
      (row / 2 * ((2 * w') / 2) + col / 2) < d.length := by
    rw [hd]; omega
  simp only [convPixel, readAt_eq_some h0, readAt_eq_some h1, readAt_eq_some h2,
    Option.bind_eq_bind, Option.some_bind, writeAt, List.length_set, hd]
  rw [if_pos (show row * (2 * w') + col <
        2 * w' * (2 * h') + 2 * w' * (2 * h') / 2 by omega)]
  simp only [Option.some_bind, List.length_set, hd]
  by_cases heven : row % 2 = 0 ∧ col % 2 = 0
  · rw [if_pos heven,
      if_pos (show 2 * w' * (2 * h') + (row / 2 * ((2 * w') / 2) + col / 2) <
        2 * w' * (2 * h') + 2 * w' * (2 * h') / 2 by omega)]
    simp only [Option.some_bind, List.length_set, hd]
    rw [if_pos (show 2 * w' * (2 * h') + 2 * w' * (2 * h') / 4 +
        (row / 2 * ((2 * w') / 2) + col / 2) <
        2 * w' * (2 * h') + 2 * w' * (2 * h') / 2 by omega)]
    refine ⟨_, rfl, by simp [List.length_set, hd], ?_, ?_⟩
    · intro k hk
      rw [getAt_set3 _ _ _ _ _ _ _ _ hld hk1d hk2d]
      unfold writesTo at hk
      rcases hk with rfl | ⟨hre, hce, rfl | rfl⟩
      · rw [if_neg (by omega), if_neg (by omega), if_pos rfl]
        unfold expectedByte
        rw [if_pos hluma]
      · rw [if_neg (by omega), if_pos rfl]
        have hw2 : (2 * w') / 2 = w' := by omega
        rw [hw2]
        rw [expectedByte_u_block w' h' bgra (row / 2) (col / 2) (by omega) (by omega)]
        have e1 : 2 * (row / 2) * (2 * w') + 2 * (col / 2) = row * (2 * w') + col := by
          have e2 : 2 * (row / 2) = row := by omega
          have e3 : 2 * (col / 2) = col := by omega
          rw [e2, e3]
        rw [e1]
      · rw [if_pos rfl]
        have hw2 : (2 * w') / 2 = w' := by omega
        rw [hw2]
        rw [expectedByte_v_block w' h' bgra (row / 2) (col / 2) (by omega) (by omega)]
        have e1 : 2 * (row / 2) * (2 * w') + 2 * (col / 2) = row * (2 * w') + col := by
          have e2 : 2 * (row / 2) = row := by omega
          have e3 : 2 * (col / 2) = col := by omega
          rw [e2, e3]
        rw [e1]
    · intro k hk
      unfold writesTo at hk
      push_neg at hk
      obtain ⟨hkL, hkC⟩ := hk
      obtain ⟨hk1, hk2⟩ := hkC heven.1 heven.2
      rw [getAt_set3 _ _ _ _ _ _ _ _ hld hk1d hk2d,
        if_neg hk2, if_neg hk1, if_neg hkL]
  · rw [if_neg heven]
    refine ⟨_, rfl, by simp [List.length_set, hd], ?_, ?_⟩
    · intro k hk
      unfold writesTo at hk
      rcases hk with rfl | ⟨hre, hce, _⟩
      · rw [getAt_set1 _ _ _ _ hld, if_pos rfl]
        unfold expectedByte
        rw [if_pos hluma]
      · exact absurd ⟨hre, hce⟩ heven
    · intro k hk
      unfold writesTo at hk
      push_neg at hk
      rw [getAt_set1 _ _ _ _ hld, if_neg hk.1]

theorem foldPairs_spec (w' h' : ℕ) (bgra : List ℕ)
    (hb : bgra.length = 2 * w' * (2 * h') * 4) :
    ∀ (l : List (ℕ × ℕ)), (∀ p ∈ l, p.1 < 2 * h' ∧ p.2 < 2 * w') →
    ∀ d : List ℕ, d.length = 2 * w' * (2 * h') + 2 * w' * (2 * h') / 2 →
    ∃ out,
      l.foldlM (fun acc p => convPixel bgra (2 * w') (2 * w' * (2 * h')) acc p.1 p.2) d
        = some out ∧
      out.length = d.length ∧
      (∀ k, (∃ p ∈ l, writesTo (2 * w') (2 * w' * (2 * h')) p.1 p.2 k) →
        getAt out k = expectedByte bgra (2 * w') (2 * w' * (2 * h')) k) ∧
      (∀ k, (∀ p ∈ l, ¬ writesTo (2 * w') (2 * w' * (2 * h')) p.1 p.2 k) →
        getAt out k = getAt d k) := by
  intro l
  induction l with
  | nil =>
    intro _ d hd
    refine ⟨d, rfl, rfl, ?_, ?_⟩
    · intro k hk
      rcases hk with ⟨p, hp, _⟩
      simp at hp
    · intro k _
      rfl
  | cons p t ih =>
    intro hmem d hd
    obtain ⟨hp1, hp2⟩ := hmem p (List.mem_cons_self p t)
    obtain ⟨d2, hstep, hlen2, hwrite, hskip⟩ :=
      convPixel_spec w' h' bgra d p.1 p.2 hb hd hp1 hp2
    obtain ⟨out, hfold, hlen, hval, hpres⟩ :=
      ih (fun q hq => hmem q (List.mem_cons_of_mem _ hq)) d2 (hlen2.trans hd)
    refine ⟨out, ?_, hlen.trans hlen2, ?_, ?_⟩
    · rw [List.foldlM_cons, hstep, Option.bind_eq_bind, Option.some_bind]
      exact hfold
    · intro k hk
      rcases hk with ⟨q, hq, hqw⟩
      rcases List.mem_cons.mp hq with rfl | hqt
      · by_cases hkt : ∃ r ∈ t, writesTo (2 * w') (2 * w' * (2 * h')) r.1 r.2 k
        · exact hval k hkt
        · push_neg at hkt
          rw [hpres k hkt]
          exact hwrite k hqw
      · exact hval k ⟨q, hqt, hqw⟩
    · intro k hk
      rw [hpres k (fun r hr => hk r (List.mem_cons_of_mem _ hr))]
      exact hskip k (hk p (List.mem_cons_self p t))

theorem writesTo_onto (w' h' k : ℕ)
    (hk : k < 2 * w' * (2 * h') + 2 * w' * (2 * h') / 2) :
    ∃ p ∈ pixelPairs (2 * w') (2 * h'),
      writesTo (2 * w') (2 * w' * (2 * h')) p.1 p.2 k := by
  have hPP : 2 * w' * (2 * h') = 4 * (w' * h') := by ring
  have hwh : 0 < w' * h' := by omega
  have hwpos : 0 < w' := by
    rcases Nat.eq_zero_or_pos w' with rfl | h
    · simp at hwh
    · exact h
  have hhpos : 0 < h' := by
    rcases Nat.eq_zero_or_pos h' with rfl | h
    · simp at hwh
    · exact h
  by_cases h1 : k < 2 * w' * (2 * h')
  · refine ⟨(k / (2 * w'), k % (2 * w')), ?_, Or.inl ?_⟩
    · rw [mem_pixelPairs]
      constructor
      · rw [Nat.div_lt_iff_lt_mul (by omega)]
        have he : 2 * h' * (2 * w') = 4 * (w' * h') := by ring
        omega
      · exact Nat.mod_lt _ (by omega)
    · rw [mul_comm]
      exact (Nat.div_add_mod k (2 * w')).symm
  · have hP4 : 2 * w' * (2 * h') / 4 = w' * h' := by omega
    by_cases h2 : k < 2 * w' * (2 * h') + 2 * w' * (2 * h') / 4
    · set ci := k - 2 * w' * (2 * h') with hci
      have hciB : ci < w' * h' := by omega
      refine ⟨(2 * (ci / w'), 2 * (ci % w')), ?_, Or.inr ⟨by omega, by omega, Or.inl ?_⟩⟩
      · rw [mem_pixelPairs]
        constructor
        · have hd : ci / w' < h' := by
            rw [Nat.div_lt_iff_lt_mul hwpos]
            have he : h' * w' = w' * h' := by ring
            omega
          simpa using by omega
        · have hm : ci % w' < w' := Nat.mod_lt _ hwpos
          simpa using by omega
      · have e1 : 2 * (ci / w') / 2 = ci / w' := by omega
        have e2 : 2 * (ci % w') / 2 = ci % w' := by omega
        have e3 : 2 * w' / 2 = w' := by omega
        simp only [e1, e2, e3]
        have h5 : ci / w' * w' + ci % w' = ci := by
          rw [mul_comm]
          exact Nat.div_add_mod ci w'
        omega
    · set ci := k - (2 * w' * (2 * h') + 2 * w' * (2 * h') / 4) with hci
      have hciB : ci < w' * h' := by omega
      refine ⟨(2 * (ci / w'), 2 * (ci % w')), ?_, Or.inr ⟨by omega, by omega, Or.inr ?_⟩⟩
      · rw [mem_pixelPairs]
        constructor
        · have hd : ci / w' < h' := by
            rw [Nat.div_lt_iff_lt_mul hwpos]
            have he : h' * w' = w' * h' := by ring
            omega
          simpa using by omega
        · have hm : ci % w' < w' := Nat.mod_lt _ hwpos
          simpa using by omega
      · have e1 : 2 * (ci / w') / 2 = ci / w' := by omega
        have e2 : 2 * (ci % w') / 2 = ci % w' := by omega
        have e3 : 2 * w' / 2 = w' := by omega
        simp only [e1, e2, e3]
        have h5 : ci / w' * w' + ci % w' = ci := by
          rw [mul_comm]
          exact Nat.div_add_mod ci w'
        omega

theorem getAt_oob {l : List ℕ} {k : ℕ} (h : l.length ≤ k) : getAt l k = 0 := by
  unfold getAt
  rw [List.getD_eq_getElem?_getD, List.getElem?_eq_none h]
  rfl

theorem bgra_to_yuv420_spec (w' h' : ℕ) (bgra : List ℕ)
    (hb : bgra.length = 2 * w' * (2 * h') * 4) :
    ∃ out, bgra_to_yuv420 bgra (2 * w') (2 * h') = some out ∧
      out.length = 2 * w' * (2 * h') + 2 * w' * (2 * h') / 2 ∧
      (∀ k, k < out.length →
        getAt out k = expectedByte bgra (2 * w') (2 * w' * (2 * h')) k) ∧
      (∀ k, getAt out k ≤ 255) := by
  obtain ⟨out, hfold, hlen, hval, _⟩ :=
    foldPairs_spec w' h' bgra hb (pixelPairs (2 * w') (2 * h'))
      (fun p hp => mem_pixelPairs.mp hp)
      (List.replicate (2 * w' * (2 * h') + 2 * w' * (2 * h') / 2) 0)
      (by simp)
  have hlen' : out.length = 2 * w' * (2 * h') + 2 * w' * (2 * h') / 2 := by
    rw [hlen]; simp
  refine ⟨out, ?_, hlen', ?_, ?_⟩
  · rw [bgra_to_yuv420_eq_pairs]
    exact hfold
  · intro k hk
    exact hval k (writesTo_onto w' h' k (by omega))
  · intro k
    by_cases hkl : k < out.length
    · rw [hval k (writesTo_onto w' h' k (by omega))]
      exact expectedByte_le _ _ _ _
    · rw [getAt_oob (by omega)]
      omega

theorem getAt_eq_getElem {l : List ℕ} {k : ℕ} (h : k < l.length) :
    getAt l k = l[k] := by
  unfold getAt
  rw [List.getD_eq_getElem?_getD, List.getElem?_eq_getElem h]
  rfl

/-- Claim C3: for every BGRA input buffer of length `width*height*4` with even
width and even height, `bgra_to_yuv420` succeeds and produces exactly
`width*height*3/2` bytes, a full-resolution luma plane followed by two chroma
planes of `width*height/4` bytes each (`chromaPlaneSize = lumaPlaneSize / 4`),
and every output byte lies in `[0, 255]`. -/
theorem c3_converter_output_shape (w h : ℕ) (bgra : List ℕ)
    (hw : w % 2 = 0) (hh : h % 2 = 0) (hb : bgra.length = w * h * 4) :
    ∃ out, bgra_to_yuv420 bgra w h = some out ∧
      out.length = w * h * 3 / 2 ∧
      out.length = lumaPlaneSize w h + 2 * chromaPlaneSize w h ∧
      chromaPlaneSize w h = lumaPlaneSize w h / 4 ∧
      ∀ k, k < out.length → getAt out k ≤ 255 := by
  obtain ⟨w', rfl⟩ : ∃ a, w = 2 * a := ⟨w / 2, by omega⟩
  obtain ⟨h', rfl⟩ : ∃ a, h = 2 * a := ⟨h / 2, by omega⟩
  obtain ⟨out, hsome, hlen, _, hle⟩ := bgra_to_yuv420_spec w' h' bgra hb
  have hPP : 2 * w' * (2 * h') = 4 * (w' * h') := by ring
  have h32 : 2 * w' * (2 * h') * 3 = 12 * (w' * h') := by ring
  refine ⟨out, hsome, by omega, ?_, ?_, fun k _ => hle k⟩
  · unfold lumaPlaneSize chromaPlaneSize
    omega
  · unfold lumaPlaneSize chromaPlaneSize
    omega

theorem c3_witness :
    ∃ out, bgra_to_yuv420 (List.replicate 64 0) 4 4 = some out ∧
      out.length = 4 * 4 * 3 / 2 ∧
      out.length = lumaPlaneSize 4 4 + 2 * chromaPlaneSize 4 4 ∧
      chromaPlaneSize 4 4 = lumaPlaneSize 4 4 / 4 ∧
      ∀ k, k < out.length → getAt out k ≤ 255 :=
  c3_converter_output_shape 4 4 (List.replicate 64 0) (by decide) (by decide) (by decide)

/-- Claim C5: for every even-dimension BGRA input, the converter's chroma
planes carry exactly one slot per 2×2 luma block
(`chromaPlaneSize = (h/2)*(w/2)`), and the U and V bytes of block `(i, j)`
are placed at chroma index `i*(w/2) + j` of their plane, computed by the
conversion formulas from the B, G, R bytes of the block's top-left pixel
`(2i, 2j)` alone (no averaging). -/
theorem c5_chroma_from_topleft (w h : ℕ) (bgra : List ℕ)
    (hw : w % 2 = 0) (hh : h % 2 = 0) (hb : bgra.length = w * h * 4) :
    ∃ out, bgra_to_yuv420 bgra w h = some out ∧
      chromaPlaneSize w h = h / 2 * (w / 2) ∧
      ∀ i j, i < h / 2 → j < w / 2 →
        getAt out (w * h + (i * (w / 2) + j)) =
          clampU8 (yuvU (getAt bgra ((2 * i * w + 2 * j) * 4 + 2))
                        (getAt bgra ((2 * i * w + 2 * j) * 4 + 1))
                        (getAt bgra ((2 * i * w + 2 * j) * 4))) ∧
        getAt out (w * h + w * h / 4 + (i * (w / 2) + j)) =
          clampU8 (yuvV (getAt bgra ((2 * i * w + 2 * j) * 4 + 2))
                        (getAt bgra ((2 * i * w + 2 * j) * 4 + 1))
                        (getAt bgra ((2 * i * w + 2 * j) * 4))) := by
  obtain ⟨w', rfl⟩ : ∃ a, w = 2 * a := ⟨w / 2, by omega⟩
  obtain ⟨h', rfl⟩ : ∃ a, h = 2 * a := ⟨h / 2, by omega⟩
  obtain ⟨out, hsome, hlen, hval, _⟩ := bgra_to_yuv420_spec w' h' bgra hb
  have hPP : 2 * w' * (2 * h') = 4 * (w' * h') := by ring
  have hw2 : 2 * w' / 2 = w' := by omega
  have hh2 : 2 * h' / 2 = h' := by omega
  have hcomm : h' * w' = w' * h' := by ring
  refine ⟨out, hsome, ?_, ?_⟩
  · unfold chromaPlaneSize
    rw [hw2, hh2]
    omega
  · intro i j hi hj
    rw [hw2] at hj ⊢
    rw [hh2] at hi
    have hblock := blockIdx_lt w' h' i j hi hj
    constructor
    · have hkb : 2 * w' * (2 * h') + (i * w' + j) < out.length := by
        rw [hlen]; omega
      rw [hval _ hkb, expectedByte_u_block w' h' bgra i j hi hj]
    · have hkb : 2 * w' * (2 * h') + 2 * w' * (2 * h') / 4 + (i * w' + j) <
          out.length := by
        rw [hlen]; omega
      rw [hval _ hkb, expectedByte_v_block w' h' bgra i j hi hj]

theorem c5_witness :
    ∃ out, bgra_to_yuv420 (List.replicate 64 0) 4 4 = some out ∧
      chromaPlaneSize 4 4 = 4 / 2 * (4 / 2) ∧
      ∀ i j, i < 4 / 2 → j < 4 / 2 →
        getAt out (4 * 4 + (i * (4 / 2) + j)) =
          clampU8 (yuvU (getAt (List.replicate 64 0) ((2 * i * 4 + 2 * j) * 4 + 2))
                        (getAt (List.replicate 64 0) ((2 * i * 4 + 2 * j) * 4 + 1))
                        (getAt (List.replicate 64 0) ((2 * i * 4 + 2 * j) * 4))) ∧
        getAt out (4 * 4 + 4 * 4 / 4 + (i * (4 / 2) + j)) =
          clampU8 (yuvV (getAt (List.replicate 64 0) ((2 * i * 4 + 2 * j) * 4 + 2))
                        (getAt (List.replicate 64 0) ((2 * i * 4 + 2 * j) * 4 + 1))
                        (getAt (List.replicate 64 0) ((2 * i * 4 + 2 * j) * 4))) :=
  c5_chroma_from_topleft 4 4 (List.replicate 64 0) (by decide) (by decide) (by decide)

/-- Claim C8: converting the 4×4 all-black BGRA frame (64 zero bytes) yields
exactly 24 bytes: 16 luma bytes equal to 16 followed by 8 chroma bytes equal
to 128. -/
theorem c8_all_black_frame :
    bgra_to_yuv420 (List.replicate 64 0) 4 4 =
      some (List.replicate 16 16 ++ List.replicate 8 128) := by
  obtain ⟨out, hsome, hlen, hval, _⟩ :=
    bgra_to_yuv420_spec 2 2 (List.replicate 64 0) (by decide)
  norm_num at hsome hlen hval
  have hy : clampU8 (yuvY (0 : ℚ) (0 : ℚ) (0 : ℚ)) = 16 := by
    have h16 : yuvY (0 : ℚ) (0 : ℚ) (0 : ℚ) = ((16 : ℕ) : ℚ) := by
      norm_num [yuvY]
    rw [h16, clampU8_eval 16 (by norm_num)]
  have hu : clampU8 (yuvU (0 : ℚ) (0 : ℚ) (0 : ℚ)) = 128 := by
    have h128 : yuvU (0 : ℚ) (0 : ℚ) (0 : ℚ) = ((128 : ℕ) : ℚ) := by
      norm_num [yuvU]
    rw [h128, clampU8_eval 128 (by norm_num)]
  have hv : clampU8 (yuvV (0 : ℚ) (0 : ℚ) (0 : ℚ)) = 128 := by
    have h128 : yuvV (0 : ℚ) (0 : ℚ) (0 : ℚ) = ((128 : ℕ) : ℚ) := by
      norm_num [yuvV]
    rw [h128, clampU8_eval 128 (by norm_num)]
  have hexp : ∀ k, expectedByte (List.replicate 64 0) 4 16 k =
      if k < 16 then 16 else 128 := by
    intro k
    unfold expectedByte
    simp only [getAt_replicate]
    by_cases h1 : k < 16
    · simp [h1, hy]
    · by_cases h2 : k < 16 + 16 / 4
      · simp [h1, h2, hu]
      · simp [h1, h2, hv]
  have hrhs : ∀ i, i < 24 →
      getAt (List.replicate 16 16 ++ List.replicate 8 128) i =
        if i < 16 then 16 else 128 := by
    intro i hi
    interval_cases i <;> rfl
  have hlen24 : out.length = 24 := by omega
  rw [hsome]
  congr 1
  apply List.ext_getElem (by simp [hlen24])
  intro i h1 h2
  rw [← getAt_eq_getElem h1, ← getAt_eq_getElem h2]
  rw [hval i (by omega), hexp i, hrhs i (by omega)]

/-- Claim C9: under the even-dimension precondition (even `w`, even `h`,
input of `w*h*4` bytes) every index used by `bgra_to_yuv420` is in bounds and
the conversion returns normally (`isSome`); outside that precondition this
fails: for `w = h = 1` with a 4-byte buffer the chroma store hits an
out-of-bounds index and the model returns `none` (the Rust code panics). -/
theorem c9_bounds_safety (w h : ℕ) (bgra : List ℕ)
    (hw : w % 2 = 0) (hh : h % 2 = 0) (hb : bgra.length = w * h * 4) :
    (bgra_to_yuv420 bgra w h).isSome ∧ bgra_to_yuv420 [0, 0, 0, 0] 1 1 = none := by
  constructor
  · obtain ⟨w', rfl⟩ : ∃ a, w = 2 * a := ⟨w / 2, by omega⟩
    obtain ⟨h', rfl⟩ : ∃ a, h = 2 * a := ⟨h / 2, by omega⟩
    obtain ⟨out, hsome, _⟩ := bgra_to_yuv420_spec w' h' bgra hb
    rw [hsome]
    rfl
  · decide

theorem c9_witness :
    (bgra_to_yuv420 (List.replicate 64 0) 4 4).isSome ∧
      bgra_to_yuv420 [0, 0, 0, 0] 1 1 = none :=
  c9_bounds_safety 4 4 (List.replicate 64 0) (by decide) (by decide) (by decide)

/-! ## Claims about the capture bridge -/

/-- Claim C7 counterexample: the presentation duration the capture bridge
assigns (`Duration::from_secs(1) / TARGET_FPS`, i.e. `frameDuration`) is
33,333,333 ns, which is not exactly `1/30` of a second — `Duration` holds
whole nanoseconds and the division truncates the remaining `1/3` ns. -/
theorem c7_counterexample :
    ((frameDuration.totalNanos : ℚ) / 1000000000) ≠ 1 / 30 := by
  have h : frameDuration.totalNanos = 33333333 := by decide
  rw [h]
  norm_num

/-- Claim C7 (amended): every sample the capture callback submits carries the
presentation duration `Duration::from_secs(1) / TARGET_FPS` — `1/30` s
truncated to whole nanoseconds, i.e. exactly 33,333,333 ns, not exactly
`1/30` s. -/
theorem c7_sample_duration (encodeResult : Except String (List ℕ)) (s : Sample)
    (h : on_frame_arrived encodeResult = .ok (some s)) :
    s.duration = frameDuration ∧
    s.duration.totalNanos = 33333333 ∧
    s.duration.totalNanos = 1 * 1000000000 / TARGET_FPS := by
  cases encodeResult with
  | error e => simp [on_frame_arrived] at h
  | ok nal =>
    by_cases hn : nal = []
    · simp [on_frame_arrived, hn] at h
    · simp only [on_frame_arrived, if_neg hn, Except.ok.injEq, Option.some.injEq] at h
      have hd : s.duration = frameDuration := by rw [← h]
      rw [hd]
      exact ⟨rfl, by decide, by decide⟩

theorem c7_witness :
    (Sample.mk [7] frameDuration).duration = frameDuration ∧
    (Sample.mk [7] frameDuration).duration.totalNanos = 33333333 ∧
    (Sample.mk [7] frameDuration).duration.totalNanos = 1 * 1000000000 / TARGET_FPS :=
  c7_sample_duration (.ok [7]) (Sample.mk [7] frameDuration) rfl

/-- Claim C10: when the encoder returns an empty byte sequence the capture
callback returns success without submitting anything to the track, and
every sample it ever submits carries exactly the encoder's output, which is
non-empty. -/
theorem c10_empty_encoder_output (encodeResult : Except String (List ℕ)) :
    on_frame_arrived (.ok []) = .ok none ∧
    (∀ s : Sample, on_frame_arrived encodeResult = .ok (some s) →
      s.data ≠ [] ∧ encodeResult = .ok s.data) := by
  refine ⟨rfl, ?_⟩
  intro s h
  cases encodeResult with
  | error e => simp [on_frame_arrived] at h
  | ok nal =>
    by_cases hn : nal = []
    · simp [on_frame_arrived, hn] at h
    · simp only [on_frame_arrived, if_neg hn, Except.ok.injEq, Option.some.injEq] at h
      have hd : s.data = nal := by rw [← h]
      rw [hd]
      exact ⟨hn, rfl⟩

theorem c10_witness :
    (Sample.mk [5] frameDuration).data ≠ [] ∧
      (Except.ok [5] : Except String (List ℕ)) =
        .ok (Sample.mk [5] frameDuration).data :=
  (c10_empty_encoder_output (.ok [5])).2 (Sample.mk [5] frameDuration) rfl

/-! ## Claims about the input channel -/

/-- Claim C6 counterexample: the one-byte payload `0xFF` is malformed (not
valid UTF-8) yet its effect is the silent discard of input.rs:26 — it is not
logged, refuting "every unrecognized or malformed payload is logged". -/
theorem c6_counterexample :
    on_message [255] = MsgEffect.discarded ∧
      MsgEffect.discarded ≠ MsgEffect.loggedBadInput := by
  exact ⟨rfl, by decide⟩

/-- Claim C6 (amended): no payload terminates the channel — every message in
the stream is processed independently by `on_message`, one effect per
message, later messages unaffected by earlier ones; a malformed payload that
is valid UTF-8 is logged and discarded, while a non-UTF-8 payload is
discarded without logging; and after the malformed `"not json"` a subsequent
valid mouse-move message still decodes and is dispatched. -/
theorem c6_malformed_discarded_channel_open :
    (∀ msgs m, processMessages (msgs ++ [m]) = processMessages msgs ++ [on_message m]) ∧
    (∀ msgs, (processMessages msgs).length = msgs.length) ∧
    (∀ data text, utf8Decode data = some text → parseInputEvent text = none →
      on_message data = MsgEffect.loggedBadInput) ∧
    (∀ data, utf8Decode data = none → on_message data = MsgEffect.discarded) ∧
    processMessages [notJsonBytes, mouseMoveBytes] =
      [MsgEffect.loggedBadInput, MsgEffect.injected (InputEvent.mouseMove 1 2)] := by
  refine ⟨?_, ?_, ?_, ?_, by decide⟩
  · intro msgs m
    simp [processMessages]
  · intro msgs
    simp [processMessages]
  · intro data text h1 h2
    simp only [on_message, h1, h2]
  · intro data h
    simp only [on_message, h]

theorem c6_witness :
    on_message notJsonBytes = MsgEffect.loggedBadInput ∧
      on_message [255] = MsgEffect.discarded :=
  ⟨c6_malformed_discarded_channel_open.2.2.1 notJsonBytes notJsonBytes
      (by decide) (by decide),
   c6_malformed_discarded_channel_open.2.2.2.1 [255] (by decide)⟩

/-! ## Claims about offer handling and the peer registry -/

theorem do_offer_peersOut (env : OfferEnv) (peers : List String) (bodySdp : String) :
    (do_offer env peers bodySdp).2.1 = peers ∨
    (do_offer env peers bodySdp).2.1 = insertPeerId peers env.freshId := by
  rcases hdo : do_offer env peers bodySdp with ⟨res, p2, tr⟩
  unfold do_offer at hdo
  simp only [localDescription, pcAfterNegotiation, Option.map] at hdo
  repeat' split at hdo
  all_goals
    injection hdo with hA hB
  all_goals
    injection hB with hB1 hB2
  all_goals
    first
      | exact Or.inl hB1.symm
      | exact Or.inr hB1.symm

theorem do_offer_ok_shape (env : OfferEnv) (peers : List String) (bodySdp : String)
    (ans : SessionDescription) (h : (do_offer env peers bodySdp).1 = .ok ans) :
    (do_offer env peers bodySdp).2.1 = insertPeerId peers env.freshId ∧
    (do_offer env peers bodySdp).2.2 = offerTrace ∧
    ans.candidates = env.candidates := by
  rcases hdo : do_offer env peers bodySdp with ⟨res, p2, tr⟩
  rw [hdo] at h
  have h' : res = .ok ans := h
  unfold do_offer at hdo
  simp only [localDescription, pcAfterNegotiation, Option.map] at hdo
  repeat' split at hdo
  all_goals
    injection hdo with hA hB
  all_goals
    injection hB with hB1 hB2
  all_goals
    rw [← hA] at h'
  all_goals
    first
      | (simp at h'; done)
      | (injection h' with h''; refine ⟨hB1.symm, hB2.symm, ?_⟩; rw [← h''])

/-- Claim C1: for every successfully handled offer, the local description is
read back and published to the caller (the `readLocalDescription` step, whose
value becomes the returned answer, main.rs:198-201) only after `gather.recv()`
has signalled ICE-gathering completion, so the returned answer carries the
complete candidate set — all candidates gathering discovered, non-empty
whenever at least one candidate was discovered. -/
theorem c1_answer_published_after_gathering (env : OfferEnv) (peers : List String)
    (bodySdp : String) (ans : SessionDescription)
    (h : (do_offer env peers bodySdp).1 = .ok ans) :
    (∃ i j, i < j ∧
      (do_offer env peers bodySdp).2.2.get? i = some OfferEvent.gatherRecv ∧
      (do_offer env peers bodySdp).2.2.get? j =
        some OfferEvent.readLocalDescription) ∧
    ans.candidates = env.candidates ∧
    (env.candidates ≠ [] → ans.candidates ≠ []) := by
  obtain ⟨hp, htr, hcand⟩ := do_offer_ok_shape env peers bodySdp ans h
  refine ⟨⟨8, 9, by omega, ?_, ?_⟩, hcand, ?_⟩
  · rw [htr]; rfl
  · rw [htr]; rfl
  · intro hne
    rw [hcand]
    exact hne

theorem c1_witness :
    (∃ i j, i < j ∧
      (do_offer sampleEnv [] "v=0").2.2.get? i = some OfferEvent.gatherRecv ∧
      (do_offer sampleEnv [] "v=0").2.2.get? j =
        some OfferEvent.readLocalDescription) ∧
    (SessionDescription.mk "answer-sdp" ["candidate:host-1"]).candidates =
      sampleEnv.candidates ∧
    (sampleEnv.candidates ≠ [] →
      (SessionDescription.mk "answer-sdp" ["candidate:host-1"]).candidates ≠ []) :=
  c1_answer_published_after_gathering sampleEnv [] "v=0"
    (SessionDescription.mk "answer-sdp" ["candidate:host-1"]) (by decide)

/-- Claim C2 counterexample: POST /offer with an empty sdp string — the
negotiation fails (`RTCSessionDescription::offer` rejects it, main.rs:186),
but the peer registry is not unchanged: the session inserted at main.rs:183,
before the sdp is parsed, stays registered, so the registry has grown. -/
theorem c2_counterexample :
    (do_offer sampleEnv [] "").1 = .error "SdpParseError" ∧
    (do_offer sampleEnv [] "").2.1 = ["peer-1"] ∧
    (do_offer sampleEnv [] "").2.1 ≠ [] := by
  refine ⟨by decide, by decide, by decide⟩

/-- Claim C2 (amended): for every failed offer the caller receives a JSON
object with an "error" field, and the registry left behind is either
unchanged — when the failure happened before the insert at main.rs:183
(media-engine setup, peer-connection creation, track attachment) — or the
input registry extended with the one session inserted for this request,
which a negotiation failure after the insert (e.g. an empty or malformed
sdp) does not remove. -/
theorem c2_error_response_and_registry (env : OfferEnv) (peers : List String)
    (bodySdp : String) (e : String)
    (h : (do_offer env peers bodySdp).1 = .error e) :
    (handle_offer env peers bodySdp).1.hasField (asciiCodes "error") = true ∧
    (handle_offer env peers bodySdp).2 = (do_offer env peers bodySdp).2.1 ∧
    ((do_offer env peers bodySdp).2.1 = peers ∨
     (do_offer env peers bodySdp).2.1 = insertPeerId peers env.freshId) := by
  have hshape := do_offer_peersOut env peers bodySdp
  unfold handle_offer
  rcases hdo : do_offer env peers bodySdp with ⟨res, peers2, tr⟩
  rw [hdo] at h hshape
  have h2 : res = .error e := h
  subst h2
  refine ⟨?_, rfl, hshape⟩
  simp [Json.hasField, lookupField]

theorem c2_witness :
    (handle_offer sampleEnv [] "").1.hasField (asciiCodes "error") = true ∧
    (handle_offer sampleEnv [] "").2 = (do_offer sampleEnv [] "").2.1 ∧
    ((do_offer sampleEnv [] "").2.1 = [] ∨
     (do_offer sampleEnv [] "").2.1 = insertPeerId [] sampleEnv.freshId) :=
  c2_error_response_and_registry sampleEnv [] "" "SdpParseError" (by decide)

/-- Claim C4 counterexample: delivering a peer-disconnect
(connection-state-change) event to a registry holding the session "abc"
leaves the registry unchanged — the session is not removed, because the
program installs no handler for that event (only `on_data_channel`,
main.rs:177). -/
theorem c4_counterexample :
    dispatchPeerEvent PeerCallbackKind.onPeerConnectionStateChange ["abc"] = ["abc"] ∧
      (["abc"] : List String) ≠ [] := by
  exact ⟨rfl, by decide⟩

/-- Claim C4 (amended): no code path removes a session from the peer
registry.  Dispatching any peer event — including disconnects — leaves the
registry unchanged, since the only installed callback is `on_data_channel`
and its handler never touches the registry; and `do_offer`, the sole code
that mutates the registry, only inserts: every id registered before a call
is still registered after it, whatever the outcome.  Registry removal
therefore never happens before process exit, and cannot serve as the
track-write cancellation mechanism. -/
theorem c4_registry_never_shrinks :
    (∀ k peers, dispatchPeerEvent k peers = peers) ∧
    (∀ env peers bodySdp id, id ∈ peers →
      id ∈ (do_offer env peers bodySdp).2.1) := by
  constructor
  · intro k peers
    cases k <;> rfl
  · intro env peers bodySdp id hid
    rcases do_offer_peersOut env peers bodySdp with h | h <;> rw [h]
    · exact hid
    · unfold insertPeerId
      by_cases hmem : env.freshId ∈ peers
      · rw [if_pos hmem]; exact hid
      · rw [if_neg hmem]; exact List.mem_cons_of_mem _ hid

theorem c4_witness :
    dispatchPeerEvent PeerCallbackKind.onPeerConnectionStateChange ["abc"] = ["abc"] ∧
      "abc" ∈ (do_offer sampleEnv ["abc"] "").2.1 :=
  ⟨c4_registry_never_shrinks.1 PeerCallbackKind.onPeerConnectionStateChange ["abc"],
   c4_registry_never_shrinks.2 sampleEnv ["abc"] "" "abc" (by decide)⟩

end LocalBridge
